import Mathlib

/-!
Verification of the core of `src/data/legacy_project/main.cpp` ("Legacy Bank
System"): a global counter `global_counter` (initialized to 0), a cycle runner
`process_client` that calls three undefined collaborator functions in a fixed
order, a loop controller `main_loop` that runs one cycle and then, while the
counter is strictly below 10, increments the counter and calls itself, and a
`main` that prints one status line, runs the loop and returns 0.

The embedding is state-passing: the program state is the value of the global
counter together with the trace of collaborator calls emitted so far.  The
three collaborators are declared but not defined in the source; following the
specification, which scopes them as external operations with no access to the
shared counter, each is modelled as appending its own event to the trace and
leaving the counter untouched.
-/

namespace LegacyProject

/-- One observable event per collaborator call made by the cycle runner. -/
inductive Event : Type
  | log_transaction
  | calculate_interest
  | update_balance
  deriving DecidableEq

/-- Program state: the value of `global_counter` plus the trace of collaborator
calls emitted so far (in order). -/
structure St where
  counter : Int
  trace : List Event
  deriving DecidableEq

/-- Collaborator `log_transaction` (declared but undefined in the source;
modelled as emitting its event and leaving the counter untouched). -/
def log_transaction (s : St) : St :=
  { s with trace := s.trace ++ [Event.log_transaction] }

/-- Collaborator `calculate_interest` (declared but undefined in the source;
modelled as emitting its event and leaving the counter untouched). -/
def calculate_interest (s : St) : St :=
  { s with trace := s.trace ++ [Event.calculate_interest] }

/-- Collaborator `update_balance` (declared but undefined in the source;
modelled as emitting its event and leaving the counter untouched). -/
def update_balance (s : St) : St :=
  { s with trace := s.trace ++ [Event.update_balance] }

/-- The cycle runner `process_client`: calls `log_transaction`, then
`calculate_interest`, then `update_balance`, unconditionally. -/
def process_client (s : St) : St :=
  update_balance (calculate_interest (log_transaction s))

/-- The events of one cycle, in the order the cycle runner emits them. -/
def cycleEvents : List Event :=
  [Event.log_transaction, Event.calculate_interest, Event.update_balance]

/-- The threshold hard-coded in `main_loop` (`global_counter < 10`). -/
def threshold : Int := 10

/-- The loop controller `main_loop`: runs `process_client` once, then if the
counter is strictly below the threshold, increments the counter and recurses.
The source hard-codes the threshold 10; it is a parameter `t` here so that the
boundary behavior at other thresholds can be stated, and the program instance
is `main_loop threshold`. -/
def main_loop (t : Int) (s : St) : St :=
  let s1 := process_client s
  if h : s1.counter < t then
    main_loop t { s1 with counter := s1.counter + 1 }
  else
    s1
termination_by (t - s.counter).toNat
decreasing_by
  simp only [s1, process_client, update_balance, calculate_interest, log_transaction] at h ⊢
  omega

/-- The result of one whole process run: the line written to standard output,
the final program state, and the exit status. -/
structure ProcResult where
  out_line : String
  final : St
  exit_code : Int
  deriving DecidableEq

/-- The entry point `main`: prints one fixed status line, runs `main_loop`
from the initial state (`global_counter` is initialized to 0) and returns 0. -/
def main : ProcResult :=
  { out_line := "Starting Bank System..."
    final := main_loop threshold { counter := 0, trace := [] }
    exit_code := 0 }

/-- The counter values observed at the start of each `main_loop` invocation of
a run with threshold `t` starting at counter `c` (derived from the source:
each invocation enters at the current counter, and recursion happens at `c + 1`
exactly when `c < t`). -/
def main_loop_entries (t c : Int) : List Int :=
  if h : c < t then c :: main_loop_entries t (c + 1) else [c]
termination_by (t - c).toNat
decreasing_by omega

/-- The number of `process_client` invocations of a run with threshold `t`
starting at counter `c` (derived from the source: each `main_loop` invocation
calls `process_client` exactly once). -/
def main_loop_cycles (t c : Int) : Nat :=
  if h : c < t then 1 + main_loop_cycles t (c + 1) else 1
termination_by (t - c).toNat
decreasing_by omega

/-- Modelled from the spec: the states of the bounded iterative state machine
the specification describes for the loop controller. -/
inductive Phase : Type
  | running
  | done
  deriving DecidableEq

/-- Modelled from the spec: a state of the loop state machine, a phase plus the
counter value. -/
structure MState where
  phase : Phase
  counter : Int
  deriving DecidableEq

/-- Modelled from the spec: the transition of the bounded iterative state
machine with threshold `t`: `running → running` with a counter increment while
the counter is below `t`, `running → done` once the counter is at or above
`t`, and `done` is terminal. -/
def specStep (t : Int) (s : MState) : MState :=
  match s.phase with
  | Phase.done => s
  | Phase.running =>
      if s.counter < t then
        { phase := Phase.running, counter := s.counter + 1 }
      else
        { phase := Phase.done, counter := s.counter }

lemma process_client_eq (s : St) :
    process_client s = { counter := s.counter, trace := s.trace ++ cycleEvents } := by
  simp [process_client, update_balance, calculate_interest, log_transaction, cycleEvents]

lemma main_loop_continue {t : Int} (s : St) (h : s.counter < t) :
    main_loop t s = main_loop t { counter := s.counter + 1, trace := s.trace ++ cycleEvents } := by
  rw [main_loop]
  simp only [process_client_eq]
  rw [dif_pos h]

lemma main_loop_stop {t : Int} (s : St) (h : ¬ s.counter < t) :
    main_loop t s = { counter := s.counter, trace := s.trace ++ cycleEvents } := by
  rw [main_loop]
  simp only [process_client_eq]
  rw [dif_neg h]

lemma main_loop_closed : ∀ (n : Nat) (t : Int) (s : St), (t - s.counter).toNat = n →
    main_loop t s =
      { counter := max s.counter t,
        trace := s.trace ++ (List.replicate (n + 1) cycleEvents).flatten } := by
  intro n
  induction n with
  | zero =>
      intro t s hn
      have ht : ¬ s.counter < t := by omega
      have hmax : max s.counter t = s.counter := by omega
      rw [main_loop_stop s ht, hmax]
      simp
  | succ n ih =>
      intro t s hn
      have ht : s.counter < t := by omega
      rw [main_loop_continue s ht]
      rw [ih t { counter := s.counter + 1, trace := s.trace ++ cycleEvents } (by simp; omega)]
      have hmax : max (s.counter + 1) t = max s.counter t := by omega
      simp [hmax, List.replicate_succ, List.append_assoc]

lemma main_loop_entries_closed : ∀ (n : Nat) (t c : Int), (t - c).toNat = n →
    main_loop_entries t c = (List.range (n + 1)).map (fun i : Nat => c + (i : Int)) := by
  intro n
  induction n with
  | zero =>
      intro t c hn
      have ht : ¬ c < t := by omega
      rw [main_loop_entries, dif_neg ht]
      rw [List.range_succ_eq_map]
      simp
  | succ n ih =>
      intro t c hn
      have ht : c < t := by omega
      rw [main_loop_entries, dif_pos ht, ih t (c + 1) (by omega)]
      conv_rhs => rw [List.range_succ_eq_map, List.map_cons, List.map_map]
      have harg : ((fun i : Nat => c + (i : Int)) ∘ Nat.succ) = fun i : Nat => c + 1 + (i : Int) := by
        funext i
        simp only [Function.comp_apply, Nat.succ_eq_add_one]
        push_cast
        ring
      rw [harg]
      simp

lemma main_loop_cycles_closed : ∀ (n : Nat) (t c : Int), (t - c).toNat = n →
    main_loop_cycles t c = n + 1 := by
  intro n
  induction n with
  | zero =>
      intro t c hn
      have ht : ¬ c < t := by omega
      rw [main_loop_cycles, dif_neg ht]
  | succ n ih =>
      intro t c hn
      have ht : c < t := by omega
      rw [main_loop_cycles, dif_pos ht, ih t (c + 1) (by omega)]
      omega

lemma specStep_run : ∀ (n : Nat) (t c : Int), (t - c).toNat = n →
    (specStep t)^[n + 1] { phase := Phase.running, counter := c } =
      { phase := Phase.done, counter := max c t } := by
  intro n
  induction n with
  | zero =>
      intro t c hn
      have ht : ¬ c < t := by omega
      have hmax : max c t = c := by omega
      simp [specStep, ht, hmax]
  | succ n ih =>
      intro t c hn
      rw [Function.iterate_succ_apply]
      have ht : c < t := by omega
      have hstep : specStep t { phase := Phase.running, counter := c } =
          { phase := Phase.running, counter := c + 1 } := by
        simp [specStep, ht]
      rw [hstep, ih t (c + 1) (by omega)]
      have hmax : max (c + 1) t = max c t := by omega
      rw [hmax]

lemma run_result :
    main_loop 10 { counter := 0, trace := [] } =
      { counter := 10, trace := (List.replicate 11 cycleEvents).flatten } := by
  rw [main_loop_closed 10 10 { counter := 0, trace := [] } (by decide)]
  simp

lemma entries_result :
    main_loop_entries 10 0 = [0, 1, 2, 3, 4, 5, 6, 7, 8, 9, 10] := by
  rw [main_loop_entries_closed 10 10 0 (by decide)]
  decide

lemma threshold_eq : threshold = 10 := rfl

/-- C1: For a full run started with the shared counter at 0 and threshold 10,
the cycle runner `process_client` is invoked exactly `threshold + 1 = 11`
times: `main_loop_cycles` counts 11 invocations, and the run's trace is
exactly eleven cycles, each contributing one `log_transaction` call. -/
theorem cycle_runner_invoked_eleven_times :
    main_loop_cycles threshold 0 = 11 ∧
    (main_loop threshold { counter := 0, trace := [] }).trace =
      (List.replicate 11 cycleEvents).flatten ∧
    (main_loop threshold { counter := 0, trace := [] }).trace.count
      Event.log_transaction = 11 := by
  refine ⟨?_, ?_, ?_⟩
  · rw [threshold_eq, main_loop_cycles_closed 10 10 0 (by decide)]
  · rw [threshold_eq, run_result]
  · rw [threshold_eq, run_result]
    decide

/-- C2: Over a full run started with the counter at 0, the shared counter is
monotonically non-decreasing, never observed above the threshold 10, and at
loop termination equals exactly 10. -/
theorem counter_monotone_bounded_and_final :
    List.Chain' (· ≤ ·) (main_loop_entries threshold 0) ∧
    (main_loop_entries threshold 0).all (fun x => decide (x ≤ 10)) = true ∧
    (main_loop_entries threshold 0).getLast? = some 10 ∧
    (main_loop threshold { counter := 0, trace := [] }).counter = 10 := by
  refine ⟨?_, ?_, ?_, ?_⟩
  · rw [threshold_eq, entries_result]
    simp [List.chain'_cons]
  · rw [threshold_eq, entries_result]
    decide
  · rw [threshold_eq, entries_result]
    decide
  · rw [threshold_eq, run_result]

/-- C3: Each invocation of `main_loop` first runs the cycle runner exactly
once (the trace it adds starts with exactly one cycle's events), then checks
the counter: if it is strictly below the threshold it increments it by exactly
1 and invokes itself recursively, otherwise it returns leaving the counter
unmodified. -/
theorem loop_controller_step_behavior (t : Int) (s : St) :
    (main_loop t s).trace.take (s.trace.length + 3) = s.trace ++ cycleEvents ∧
    (s.counter < t →
      main_loop t s =
        main_loop t { counter := s.counter + 1, trace := s.trace ++ cycleEvents }) ∧
    (¬ s.counter < t →
      main_loop t s = { counter := s.counter, trace := s.trace ++ cycleEvents }) := by
  refine ⟨?_, fun h => main_loop_continue s h, fun h => main_loop_stop s h⟩
  rw [main_loop_closed (t - s.counter).toNat t s rfl]
  rw [List.replicate_succ, List.flatten_cons, ← List.append_assoc]
  exact List.take_left' (by simp [cycleEvents])

/-- Witness for C3: at threshold 10, the invocation starting at counter 0
takes the continue branch and the one starting at counter 10 returns with the
counter unmodified. -/
theorem loop_controller_step_behavior_witness :
    main_loop 10 { counter := 0, trace := [] } =
      main_loop 10 { counter := 1, trace := cycleEvents } ∧
    main_loop 10 { counter := 10, trace := [] } =
      { counter := 10, trace := cycleEvents } := by
  constructor
  · have h := (loop_controller_step_behavior 10 { counter := 0, trace := [] }).2.1
      (by decide)
    simpa using h
  · have h := (loop_controller_step_behavior 10 { counter := 10, trace := [] }).2.2
      (by decide)
    simpa using h

/-- C4: The loop controller terminates for every starting counter value: the
spec's `{running, done}` state machine reaches the terminal `done` state in
finitely many steps, at exactly the final counter value `main_loop` computes,
and the full run from counter 0 with threshold 10 reaches `done` with counter
10 after 11 steps. -/
theorem loop_controller_terminates :
    (∀ (t c : Int), ∃ n : Nat,
      (specStep t)^[n] { phase := Phase.running, counter := c } =
        { phase := Phase.done,
          counter := (main_loop t { counter := c, trace := [] }).counter }) ∧
    (specStep 10)^[11] { phase := Phase.running, counter := 0 } =
      { phase := Phase.done, counter := 10 } := by
  constructor
  · intro t c
    refine ⟨(t - c).toNat + 1, ?_⟩
    rw [main_loop_closed (t - c).toNat t { counter := c, trace := [] } rfl]
    rw [specStep_run (t - c).toNat t c rfl]
  · decide

/-- C5: In every cycle the cycle runner invokes the three collaborators each
exactly once, unconditionally, in the strict order `log_transaction`,
`calculate_interest`, `update_balance`; over the full run with threshold 10
the trace is exactly eleven uninterleaved cycles and each collaborator is
invoked exactly 11 times. -/
theorem cycle_pipeline_order_and_cardinality :
    (∀ s : St, (process_client s).trace =
      s.trace ++
        [Event.log_transaction, Event.calculate_interest, Event.update_balance]) ∧
    (main_loop threshold { counter := 0, trace := [] }).trace =
      (List.replicate 11
        [Event.log_transaction, Event.calculate_interest, Event.update_balance]).flatten ∧
    (main_loop threshold { counter := 0, trace := [] }).trace.count
      Event.log_transaction = 11 ∧
    (main_loop threshold { counter := 0, trace := [] }).trace.count
      Event.calculate_interest = 11 ∧
    (main_loop threshold { counter := 0, trace := [] }).trace.count
      Event.update_balance = 11 := by
  refine ⟨fun s => ?_, ?_, ?_, ?_, ?_⟩
  · rw [process_client_eq]
    rfl
  · rw [threshold_eq, run_result]
    rfl
  · rw [threshold_eq, run_result]
    decide
  · rw [threshold_eq, run_result]
    decide
  · rw [threshold_eq, run_result]
    decide

/-- C6: If the threshold were 0 (counter starting at 0), the cycle runner
would still execute exactly once: the run performs a single unconditional
cycle and leaves the counter at 0. -/
theorem threshold_zero_single_cycle :
    main_loop 0 { counter := 0, trace := [] } = { counter := 0, trace := cycleEvents } ∧
    main_loop_cycles 0 0 = 1 := by
  constructor
  · rw [main_loop_closed 0 0 { counter := 0, trace := [] } (by decide)]
    simp
  · rw [main_loop_cycles_closed 0 0 0 (by decide)]

/-- C7: The cycle runner and each collaborator leave the shared counter
unchanged; only the loop controller mutates it, exactly once per completed
non-final cycle and only by increment: across the 11 invocations of the full
run, consecutive observed counter values grow by exactly 1. -/
theorem counter_only_mutated_by_loop_controller :
    (∀ s : St, (process_client s).counter = s.counter) ∧
    (∀ s : St, (log_transaction s).counter = s.counter) ∧
    (∀ s : St, (calculate_interest s).counter = s.counter) ∧
    (∀ s : St, (update_balance s).counter = s.counter) ∧
    List.Chain' (fun a b => b = a + 1) (main_loop_entries threshold 0) ∧
    (main_loop_entries threshold 0).length = 11 := by
  refine ⟨fun s => rfl, fun s => rfl, fun s => rfl, fun s => rfl, ?_, ?_⟩
  · rw [threshold_eq, entries_result]
    simp [List.chain'_cons]
  · rw [threshold_eq, entries_result]
    decide

/-- C8: The entry point emits exactly the one fixed status line, then runs the
loop controller from counter 0; it reads no inputs, has no failure path, and
exits with status code 0. -/
theorem entry_point_behavior :
    main.out_line = "Starting Bank System..." ∧
    main.exit_code = 0 ∧
    main.final = main_loop threshold { counter := 0, trace := [] } :=
  ⟨rfl, rfl, rfl⟩

/-- C9: The program is deterministic across runs: the whole-process result is
a single fixed value, so any two executions from a fresh start agree; that run
has final counter 10 and cycle count 11. -/
theorem process_run_deterministic :
    main.final.counter = 10 ∧
    main.final.trace.count Event.log_transaction = 11 ∧
    ∀ r₁ r₂ : ProcResult, r₁ = main → r₂ = main → r₁ = r₂ := by
  refine ⟨?_, ?_, fun r₁ r₂ h₁ h₂ => h₁.trans h₂.symm⟩
  · show (main_loop threshold { counter := 0, trace := [] }).counter = 10
    rw [threshold_eq, run_result]
  · show (main_loop threshold { counter := 0, trace := [] }).trace.count
      Event.log_transaction = 11
    rw [threshold_eq, run_result]
    decide

/-- Witness for C9: the process result equals the concrete run record. -/
theorem process_run_deterministic_witness :
    main = { out_line := "Starting Bank System..."
             final := main_loop 10 { counter := 0, trace := [] }
             exit_code := 0 } :=
  process_run_deterministic.2.2 main
    { out_line := "Starting Bank System..."
      final := main_loop 10 { counter := 0, trace := [] }
      exit_code := 0 } rfl rfl

/-- C10: In the full run from counter 0, the k-th invocation of `main_loop`
(k = 1..11) starts with the counter at exactly k - 1, each recursive
invocation observes a counter exactly one greater than its caller, and the
last observed value is the run's final counter. -/
theorem kth_invocation_observes_k_minus_one :
    main_loop_entries threshold 0 = [0, 1, 2, 3, 4, 5, 6, 7, 8, 9, 10] ∧
    (∀ k : Nat, 1 ≤ k → k ≤ 11 →
      (main_loop_entries threshold 0).getD (k - 1) 0 = (k : Int) - 1) ∧
    List.Chain' (fun a b => b = a + 1) (main_loop_entries threshold 0) ∧
    (main_loop_entries threshold 0).getLast? =
      some (main_loop threshold { counter := 0, trace := [] }).counter := by
  have he : main_loop_entries threshold 0 = [0, 1, 2, 3, 4, 5, 6, 7, 8, 9, 10] := by
    rw [threshold_eq, entries_result]
  refine ⟨he, ?_, ?_, ?_⟩
  · intro k h1 h2
    interval_cases k <;> rw [he] <;> decide
  · rw [he]
    simp [List.chain'_cons]
  · rw [he, threshold_eq, run_result]
    decide

/-- Witness for C10: the 5th invocation starts with the counter at 4. -/
theorem kth_invocation_observes_k_minus_one_witness :
    (main_loop_entries threshold 0).getD 4 0 = (4 : Int) := by
  have h := kth_invocation_observes_k_minus_one.2.1 5 (by norm_num) (by norm_num)
  simpa using h

end LegacyProject
